/-
Verification of the worktree lifecycle manager (wt).

The TypeScript source is shallowly embedded: external effects (git, zellij,
the filesystem, stdin) are modelled by an environment record supplying the
observable outcome of each external interaction, and each orchestrator
function is translated into a pure Lean function that returns its outcome
together with the ordered trace of external commands it issued.

Bun shell semantics used throughout: a command template `await $\x7b...\x7d`
throws on a non-zero exit code unless `.nothrow()` is attached; `showError`
prints and terminates the whole process with exit code 1.
-/
import Mathlib

set_option maxRecDepth 4000

namespace Wt

/-! ## Port allocator

`findAvailablePort` (src/src/index.ts, lines 89-99) scans ports 3002, 3003,
..., 3999 (the loop condition is `port < 4000`) and returns the first port
for which `isPortAvailable` resolves true; if none qualifies it throws.
`findAvailablePorts` (src/unnamed/part_003 lines 78-92 and part_004 lines
39-53) scans the same candidates, probing `port` and `port + 1`, and returns
the record with `adminPort = port + 1` and `webhookPort = port`.

The liveness probe is abstracted as `free : Nat → Bool` (true means the TCP
connection failed, i.e. the port is available).  A thrown error is `none`.
-/

/-- One step of the `for (let port = 3002; port < 4000; port++)` loop of
`findAvailablePort`: the fuel counts the remaining iterations. -/
def scanPort (free : Nat → Bool) : Nat → Nat → Option Nat
  | _, 0 => none
  | p, n + 1 => if free p then some p else scanPort free (p + 1) n

/-- `findAvailablePort` from src/src/index.ts: first free port in the scan,
starting at 3002 with 998 iterations (ports 3002 .. 3999). -/
def findAvailablePort (free : Nat → Bool) : Option Nat :=
  scanPort free 3002 998

/-- The result record of `findAvailablePorts`. -/
structure PortPair where
  adminPort : Nat
  webhookPort : Nat
deriving DecidableEq, Repr

/-- One step of the pair-mode loop: `webhookAvailable` is `free p`,
`adminAvailable` is `free (p + 1)`, and the guard is
`adminAvailable && webhookAvailable`; on success the higher port is the
admin port and the lower the webhook port. -/
def scanPorts (free : Nat → Bool) : Nat → Nat → Option PortPair
  | _, 0 => none
  | p, n + 1 =>
    if free (p + 1) && free p then some ⟨p + 1, p⟩
    else scanPorts free (p + 1) n

/-- `findAvailablePorts` from src/unnamed/part_003 and part_004: same scan
range 3002 .. 3999 as the single-port mode. -/
def findAvailablePorts (free : Nat → Bool) : Option PortPair :=
  scanPorts free 3002 998

/-- The ports probed by the pair-mode loop, in probe order: each iteration
probes `p` then `p + 1`, and the loop stops after a successful candidate. -/
def scanPortsProbes (free : Nat → Bool) : Nat → Nat → List Nat
  | _, 0 => []
  | p, n + 1 =>
    if free (p + 1) && free p then [p, p + 1]
    else p :: (p + 1) :: scanPortsProbes free (p + 1) n

/-- All ports probed by `findAvailablePorts`. -/
def findAvailablePortsProbes (free : Nat → Bool) : List Nat :=
  scanPortsProbes free 3002 998

theorem scanPort_some_iff (free : Nat → Bool) (a n p : Nat) :
    scanPort free a n = some p ↔
      a ≤ p ∧ p < a + n ∧ free p = true ∧
        ∀ q, q < p → a ≤ q → free q = false := by
  induction n generalizing a with
  | zero =>
    constructor
    · intro hc; exact Option.noConfusion hc
    · rintro ⟨h1, h2, -, -⟩; exfalso; omega
  | succ n ih =>
    rw [scanPort]
    cases hfa : free a with
    | true =>
      rw [if_pos rfl]
      constructor
      · intro hc
        injection hc with hc
        subst hc
        exact ⟨Nat.le_refl _, by omega, hfa, fun q hq hq' => by omega⟩
      · rintro ⟨h1, h2, h3, h4⟩
        rcases (Nat.eq_or_lt_of_le h1) with heq | hlt
        · rw [heq]
        · exfalso
          have hq := h4 a hlt (Nat.le_refl a)
          rw [hq] at hfa
          exact Bool.noConfusion hfa
    | false =>
      rw [if_neg (by simp)]
      rw [ih]
      constructor
      · rintro ⟨h1, h2, h3, h4⟩
        refine ⟨by omega, by omega, h3, fun q hq hq' => ?_⟩
        rcases (Nat.eq_or_lt_of_le hq') with heq | hlt
        · subst heq; exact hfa
        · exact h4 q hq (by omega)
      · rintro ⟨h1, h2, h3, h4⟩
        have hne : a ≠ p := by
          intro heq
          rw [← heq, hfa] at h3
          exact Bool.noConfusion h3
        exact ⟨by omega, by omega, h3, fun q hq hq' => h4 q hq (by omega)⟩

theorem scanPort_none_iff (free : Nat → Bool) (a n : Nat) :
    scanPort free a n = none ↔ ∀ q, q < a + n → a ≤ q → free q = false := by
  induction n generalizing a with
  | zero =>
    constructor
    · intro _ q hq hq'; exfalso; omega
    · intro _; rfl
  | succ n ih =>
    rw [scanPort]
    cases hfa : free a with
    | true =>
      rw [if_pos rfl]
      constructor
      · intro hc; exact Option.noConfusion hc
      · intro hall
        have hq := hall a (by omega) (Nat.le_refl a)
        rw [hq] at hfa
        exact Bool.noConfusion hfa
    | false =>
      rw [if_neg (by simp)]
      rw [ih]
      constructor
      · intro hall q hq hq'
        rcases (Nat.eq_or_lt_of_le hq') with heq | hlt
        · subst heq; exact hfa
        · exact hall q (by omega) (by omega)
      · intro hall q hq hq'
        exact hall q (by omega) (by omega)

theorem pairCond_false (free : Nat → Bool) (a : Nat)
    (h : ¬(free a = true ∧ free (a + 1) = true)) :
    (free (a + 1) && free a) = false := by
  cases h2 : free a with
  | false => simp
  | true =>
    cases h1 : free (a + 1) with
    | false => simp
    | true => exact absurd ⟨h2, h1⟩ h

theorem scanPorts_first (free : Nat → Bool) (a n p : Nat)
    (ha : a ≤ p) (hn : p < a + n)
    (hw : free p = true) (had : free (p + 1) = true)
    (hfirst : ∀ q, q < p → a ≤ q → ¬(free q = true ∧ free (q + 1) = true)) :
    scanPorts free a n = some ⟨p + 1, p⟩ := by
  induction n generalizing a with
  | zero => exfalso; omega
  | succ n ih =>
    rw [scanPorts]
    rcases (Nat.eq_or_lt_of_le ha) with heq | hlt
    · subst heq
      rw [hw, had]
      rw [if_pos (by simp)]
    · rw [pairCond_false free a (hfirst a hlt (Nat.le_refl a))]
      rw [if_neg (by simp)]
      exact ih (a + 1) hlt (by omega) (fun q hq hq' => hfirst q hq (by omega))

theorem scanPortsProbes_mem (free : Nat → Bool) (a n p : Nat)
    (ha : a ≤ p) (hn : p < a + n)
    (hfirst : ∀ q, q < p → a ≤ q → ¬(free q = true ∧ free (q + 1) = true)) :
    p + 1 ∈ scanPortsProbes free a n := by
  induction n generalizing a with
  | zero => exfalso; omega
  | succ n ih =>
    rw [scanPortsProbes]
    rcases (Nat.eq_or_lt_of_le ha) with heq | hlt
    · subst heq
      by_cases hc : (free (a + 1) && free a) = true
      · rw [if_pos hc]; simp
      · rw [if_neg hc]; simp
    · rw [pairCond_false free a (hfirst a hlt (Nat.le_refl a))]
      rw [if_neg (by simp)]
      apply List.mem_cons_of_mem
      apply List.mem_cons_of_mem
      exact ih (a + 1) hlt (by omega) (fun q hq hq' => hfirst q hq (by omega))

/-- C7: in single-port mode, for every occupancy of the range
[3002, 4000), `findAvailablePort` returns the smallest free port in the
range (with 3002-3004 occupied and 3005 free it returns 3005), and it
raises the no-port-available error exactly when every port in the range is
in use. -/
theorem findAvailablePort_single_mode :
    (∀ free p, findAvailablePort free = some p ↔
      3002 ≤ p ∧ p < 4000 ∧ free p = true ∧
        ∀ q, q < p → 3002 ≤ q → free q = false)
    ∧ (∀ free, findAvailablePort free = none ↔
        ∀ q, q < 4000 → 3002 ≤ q → free q = false)
    ∧ findAvailablePort (fun p => decide (3005 ≤ p)) = some 3005 := by
  have hsome : ∀ free p, findAvailablePort free = some p ↔
      3002 ≤ p ∧ p < 4000 ∧ free p = true ∧
        ∀ q, q < p → 3002 ≤ q → free q = false := by
    intro free p
    have h := scanPort_some_iff free 3002 998 p
    simpa [findAvailablePort] using h
  refine ⟨hsome, fun free => ?_, ?_⟩
  · have h := scanPort_none_iff free 3002 998
    simpa [findAvailablePort] using h
  · refine (hsome _ 3005).mpr ⟨by omega, by omega, by simp, ?_⟩
    intro q hq _
    simp only [decide_eq_false_iff_not]
    omega

/-- Witness for `findAvailablePort_single_mode` at concrete occupancies. -/
theorem findAvailablePort_single_mode_witness :
    findAvailablePort (fun p => decide (3005 ≤ p)) = some 3005 ∧
    findAvailablePort (fun _ => false) = none :=
  ⟨(findAvailablePort_single_mode.1 (fun p => decide (3005 ≤ p)) 3005).mpr
      ⟨by omega, by omega, by simp,
       fun q hq _ => by simp only [decide_eq_false_iff_not]; omega⟩,
   (findAvailablePort_single_mode.2.1 (fun _ => false)).mpr
      (fun _ _ _ => rfl)⟩

/-- C6: in adjacent-pair mode, the allocator returns the first ascending
candidate `p` with both `p` and `p + 1` free, designating the higher port
`p + 1` as `adminPort` and the lower `p` as `webhookPort`; with only 3006
and 3007 free it returns adminPort 3007 and webhookPort 3006. -/
theorem findAvailablePorts_pair_mode :
    (∀ free p, 3002 ≤ p → p < 4000 → free p = true → free (p + 1) = true →
      (∀ q, q < p → 3002 ≤ q → ¬(free q = true ∧ free (q + 1) = true)) →
      findAvailablePorts free = some ⟨p + 1, p⟩)
    ∧ findAvailablePorts (fun p => p == 3006 || p == 3007) =
        some ⟨3007, 3006⟩ := by
  refine ⟨fun free p h1 h2 hw had hfirst =>
    scanPorts_first free 3002 998 p h1 (by omega) hw had hfirst, ?_⟩
  refine scanPorts_first _ 3002 998 3006 (by omega) (by omega)
    (by simp) (by simp) ?_
  intro q hq _
  rintro ⟨h1, -⟩
  simp only [Bool.or_eq_true, beq_iff_eq] at h1
  omega

/-- Witness for `findAvailablePorts_pair_mode`: the occupancy with exactly
3006 and 3007 free. -/
theorem findAvailablePorts_pair_mode_witness :
    findAvailablePorts (fun p => p == 3006 || p == 3007) =
      some ⟨3007, 3006⟩ :=
  findAvailablePorts_pair_mode.1 (fun p => p == 3006 || p == 3007) 3006
    (by omega) (by omega) (by simp) (by simp)
    (fun q hq _ h => by
      simp only [Bool.or_eq_true, beq_iff_eq] at h
      omega)

/-- C10: in adjacent-pair mode the allocator can probe and return a port one
past the stated upper bound of the scan range: with every port of
3002-3998 in use and 3999 and 4000 both free, it probes port 4000 and
returns adminPort 4000, which lies outside [3002, 4000). -/
theorem findAvailablePorts_beyond_range :
    findAvailablePorts (fun p => p == 3999 || p == 4000) = some ⟨4000, 3999⟩
    ∧ 4000 ∈ findAvailablePortsProbes (fun p => p == 3999 || p == 4000)
    ∧ ¬(4000 < 4000) := by
  have hfirst : ∀ q, q < 3999 → 3002 ≤ q →
      ¬(((q == 3999 || q == 4000) = true) ∧
        ((q + 1 == 3999 || q + 1 == 4000) = true)) := by
    intro q hq _
    rintro ⟨h1, -⟩
    simp only [Bool.or_eq_true, beq_iff_eq] at h1
    omega
  refine ⟨?_, ?_, by omega⟩
  · exact scanPorts_first _ 3002 998 3999 (by omega) (by omega)
      (by simp) (by simp) hfirst
  · exact scanPortsProbes_mem _ 3002 998 3999 (by omega) (by omega) hfirst

/-! ## JavaScript string primitives

The JS string methods the source uses — `trim()`, `toLowerCase()`,
`split("\n")`, `substring(n)`, `startsWith(p)`, `includes(p)`, truthiness
of a string — are embedded as computable functions on the character list
of the string. -/

/-- `String.prototype.trim`: strip leading and trailing whitespace. -/
def jsTrim (s : String) : String :=
  ⟨((s.data.dropWhile Char.isWhitespace).reverse.dropWhile
      Char.isWhitespace).reverse⟩

/-- `String.prototype.toLowerCase` (ASCII case mapping suffices here). -/
def jsToLower (s : String) : String :=
  ⟨s.data.map Char.toLower⟩

/-- Emptiness of a string (JS falsiness of a string value). -/
def jsEmpty (s : String) : Bool :=
  s.data.isEmpty

/-- `split("\n")` on a character list: every `\n` ends a field. -/
def splitNlChars : List Char → List (List Char)
  | [] => [[]]
  | c :: cs =>
    if c == '\n' then [] :: splitNlChars cs
    else
      match splitNlChars cs with
      | h :: t => (c :: h) :: t
      | [] => [[c]]

/-- `String.prototype.split` with separator `"\n"`. -/
def jsSplitNl (s : String) : List String :=
  (splitNlChars s.data).map (fun l => ⟨l⟩)

/-- `String.prototype.startsWith`. -/
def jsStartsWith (s p : String) : Bool :=
  p.data.isPrefixOf s.data

/-- `String.prototype.substring(n)`: drop the first `n` characters. -/
def jsSubstringFrom (s : String) (n : Nat) : String :=
  ⟨s.data.drop n⟩

/-- `String.prototype.includes`: some suffix of `hay` has `needle` as a
prefix. -/
def jsIncludes (hay needle : String) : Bool :=
  (List.range (hay.data.length + 1)).any
    (fun i => needle.data.isPrefixOf (hay.data.drop i))

/-! ## Label validation and user prompt -/

/-- The character class of the label regex `[a-zA-Z0-9_-]`
(src/src/index.ts line 317, 422, 443). -/
def labelChar (c : Char) : Bool :=
  (('a' ≤ c && c ≤ 'z') || ('A' ≤ c && c ≤ 'Z') ||
   ('0' ≤ c && c ≤ '9') || c == '_' || c == '-')

/-- `/^[a-zA-Z0-9_-]+$/.test label`: the whole string is a non-empty run of
characters of the class. -/
def validLabel (label : String) : Bool :=
  !(jsEmpty label) && label.data.all labelChar

/-- `promptUser` (src/src/index.ts lines 104-116) resolves with the value of
`input === "y" || input === "yes"` where `input` is the stdin line trimmed
and lowercased.  Modelled as a function of the raw input line. -/
def promptUser (input : String) : Bool :=
  let s := jsToLower (jsTrim input)
  s == "y" || s == "yes"

/-- Reading one line from the queued stdin answers; an exhausted queue
yields the empty line. -/
def takeAnswer : List String → String × List String
  | [] => ("", [])
  | a :: rest => (a, rest)

/-! ## Lifecycle orchestrator

The orchestrator functions of src/src/index.ts are embedded as pure
functions over an environment describing the observable behaviour of the
external tools.  Each run yields an outcome (`ok`, or `fatal` for
`showError`, which prints and calls `process.exit(1)`), the ordered list of
external commands issued, and the stdin answers not yet consumed. -/

/-- The external commands the orchestrator can issue (src/src/index.ts). -/
inductive Cmd where
  | gitLog (branch : String)
  | gitCheckoutMain
  | gitRevList (branch : String)
  | gitCherryPick (commit : String)
  | gitWorktreeRemove (path : String)
  | gitBranchDelete (branch : String)
  | zellijDeleteSession (session : String)
  | gitWorktreeAdd (path : String) (branch : String)
  | cpScaffold (path : String)
  | bunInstall (path : String)
  | writeEnvFile (path : String)
  | zellijSpawn (session : String)
  | zellijAttach (session : String)
  | zellijListSessions
  | gitWorktreeList
deriving DecidableEq, Repr

/-- Observable behaviour of the external world.  For the query commands the
`Option` is `none` when the command exits non-zero (Bun's shell throws);
`cmdOk` tells whether an effectful command succeeds. -/
structure Env where
  cwd : String
  fsExists : String → Bool
  gitLogOut : String → Option String
  revListOut : String → Option String
  worktreeListOut : Option String
  sessionsOut : Option String
  cmdOk : Cmd → Bool
  configOk : Bool
  hasEnvironment : Bool

/-- `ok` for a normal return, `fatal` when `showError` terminated the
process with exit code 1. -/
inductive Outcome where
  | ok
  | fatal
deriving DecidableEq, Repr

/-- Result of running an orchestrator function: outcome, trace of issued
external commands (in order, including the failing one), and the unread
stdin lines. -/
structure RunResult where
  outcome : Outcome
  trace : List Cmd
  answersLeft : List String
deriving DecidableEq, Repr

/-- The computed worktree path
`$\x7bprocess.cwd()\x7d/$\x7bconfigDir\x7d/worktrees/$\x7blabel\x7d`. -/
def worktreePathOf (env : Env) (configDir label : String) : String :=
  env.cwd ++ "/" ++ configDir ++ "/worktrees/" ++ label

/-- `hasUnmergedCommits` (lines 121-128): runs `git log main..branch`
and tests whether the trimmed stdout is non-empty; its own catch turns any
shell error into `false`. -/
def hasUnmergedCommits (env : Env) (branch : String) : Bool :=
  match env.gitLogOut branch with
  | none => false
  | some out => !(jsEmpty (jsTrim out))

/-- The cherry-pick loop (lines 222-226): for each entry, if its trim is
truthy, run `git cherry-pick` on the (untrimmed) entry; a failing pick
throws, ending the loop.  Returns the commands issued; `error` means a pick
failed. -/
def cherryPickAll (env : Env) : List String → Except (List Cmd) (List Cmd)
  | [] => .ok []
  | c :: cs =>
    if jsEmpty (jsTrim c) then cherryPickAll env cs
    else if env.cmdOk (.gitCherryPick c) then
      match cherryPickAll env cs with
      | .ok t => .ok (.gitCherryPick c :: t)
      | .error t => .error (.gitCherryPick c :: t)
    else .error [.gitCherryPick c]

/-- The consented reconciliation block (lines 211-227): `git checkout main`,
then `git rev-list main..label`, whose trimmed stdout is split on newlines
and reversed, then the cherry-pick loop.  Any thrown shell error is an
`error` (propagating to the enclosing catch). -/
def pickPhase (env : Env) (label : String) : Except (List Cmd) (List Cmd) :=
  if env.cmdOk .gitCheckoutMain then
    match env.revListOut label with
    | none => .error [.gitCheckoutMain, .gitRevList label]
    | some out =>
      match cherryPickAll env ((jsSplitNl (jsTrim out)).reverse) with
      | .ok t => .ok (.gitCheckoutMain :: .gitRevList label :: t)
      | .error t => .error (.gitCheckoutMain :: .gitRevList label :: t)
  else .error [.gitCheckoutMain]

/-- The destructive tail of `cleanupWorktree` (lines 231-243):
`git worktree remove --force`, `git branch -D`, `zellij delete-session`
(none of the three uses `.nothrow()`, so each throws on non-zero exit). -/
def destructivePhase (env : Env) (label worktreePath : String) :
    Outcome × List Cmd :=
  if env.cmdOk (.gitWorktreeRemove worktreePath) then
    if env.cmdOk (.gitBranchDelete label) then
      if env.cmdOk (.zellijDeleteSession ("wt-" ++ label)) then
        (.ok, [.gitWorktreeRemove worktreePath, .gitBranchDelete label,
               .zellijDeleteSession ("wt-" ++ label)])
      else
        (.fatal, [.gitWorktreeRemove worktreePath, .gitBranchDelete label,
                  .zellijDeleteSession ("wt-" ++ label)])
    else (.fatal, [.gitWorktreeRemove worktreePath, .gitBranchDelete label])
  else (.fatal, [.gitWorktreeRemove worktreePath])

/-- `cleanupWorktree` (lines 189-248).  Early return when the worktree path
does not exist; otherwise the unmerged check, the optional consented
reconciliation, then the destructive tail; every shell error inside the try
block reaches the catch, which calls `showError` (fatal). -/
def cleanupWorktree (env : Env) (answers : List String)
    (label configDir : String) : RunResult :=
  let worktreePath := worktreePathOf env configDir label
  if env.fsExists worktreePath then
    let consentStep :=
      if hasUnmergedCommits env label then
        let (a, rest) := takeAnswer answers
        (promptUser a, rest)
      else (false, answers)
    match (if consentStep.1 then pickPhase env label else .ok []) with
    | .error t => ⟨.fatal, .gitLog label :: t, consentStep.2⟩
    | .ok t =>
      let d := destructivePhase env label worktreePath
      ⟨d.1, .gitLog label :: (t ++ d.2), consentStep.2⟩
  else ⟨.ok, [], answers⟩

/-- `getAllWorktrees` (lines 133-155): parse the porcelain worktree list,
keeping the trimmed lines that start with `worktree ` followed by the
managed worktrees directory, and extracting the label as the path suffix;
any shell error yields the empty list. -/
def getAllWorktrees (env : Env) (configDir : String) : List String :=
  match env.worktreeListOut with
  | none => []
  | some out =>
    let worktreesDir := env.cwd ++ "/" ++ configDir ++ "/worktrees/"
    (jsSplitNl out).filterMap (fun line =>
      let l := jsTrim line
      if jsStartsWith l ("worktree " ++ worktreesDir) then
        let worktreePath := jsSubstringFrom l ("worktree " : String).data.length
        let label := jsSubstringFrom worktreePath worktreesDir.data.length
        if jsEmpty label then none else some label
      else none)

/-- The `for (const label of worktrees)` loop of `cleanupAllWorktrees`
(lines 178-181): each iteration awaits `cleanupWorktree`; a fatal outcome
is `process.exit(1)`, so the remaining labels are never reached. -/
def cleanupLoop (env : Env) (configDir : String) :
    List String → List String → Outcome × List Cmd × List String
  | answers, [] => (.ok, [], answers)
  | answers, label :: rest =>
    let r := cleanupWorktree env answers label configDir
    match r.outcome with
    | .fatal => (.fatal, r.trace, r.answersLeft)
    | .ok =>
      let tail := cleanupLoop env configDir r.answersLeft rest
      (tail.1, r.trace ++ tail.2.1, tail.2.2)

/-- `cleanupAllWorktrees` (lines 160-184): enumerate the registered
worktrees, no-op when there are none, otherwise one confirmation prompt for
the whole batch, then the sequential per-label loop. -/
def cleanupAllWorktrees (env : Env) (answers : List String)
    (configDir : String) : RunResult :=
  let worktrees := getAllWorktrees env configDir
  if worktrees.length == 0 then ⟨.ok, [.gitWorktreeList], answers⟩
  else
    let (a, answers1) := takeAnswer answers
    if promptUser a then
      let r := cleanupLoop env configDir answers1 worktrees
      ⟨r.1, .gitWorktreeList :: r.2.1, r.2.2⟩
    else ⟨.ok, [.gitWorktreeList], answers1⟩

/-- The worktree-creation block of `createWorktree` (lines 330-342), run
only when the worktree path does not already exist: `git worktree add -b`,
`cp -r local`, `bun install`; a failure of any throws and the local catch
calls `showError` (fatal). -/
def creationPhase (env : Env) (label worktreePath : String) :
    Except (List Cmd) (List Cmd) :=
  if env.fsExists worktreePath then .ok []
  else if env.cmdOk (.gitWorktreeAdd worktreePath label) then
    if env.cmdOk (.cpScaffold worktreePath) then
      if env.cmdOk (.bunInstall worktreePath) then
        .ok [.gitWorktreeAdd worktreePath label, .cpScaffold worktreePath,
             .bunInstall worktreePath]
      else .error [.gitWorktreeAdd worktreePath label,
                   .cpScaffold worktreePath, .bunInstall worktreePath]
    else .error [.gitWorktreeAdd worktreePath label, .cpScaffold worktreePath]
  else .error [.gitWorktreeAdd worktreePath label]

/-- `createWorktree` (lines 306-393) with the label given (the auto
generation of a missing label is upstream of everything modelled here):
validate the label; skip the creation block when the path already exists;
load the config (fatal when invalid); when the config has an `environment`
function, rewrite the `.env.local` file; spawn the zellij session and block;
then prompt for automatic cleanup and on consent run `cleanupWorktree`. -/
def createWorktree (env : Env) (answers : List String)
    (label configDir : String) : RunResult :=
  if validLabel label then
    let worktreePath := worktreePathOf env configDir label
    match creationPhase env label worktreePath with
    | .error t => ⟨.fatal, t, answers⟩
    | .ok t0 =>
      if env.configOk then
        let t1 := t0 ++
          (if env.hasEnvironment then
            [Cmd.writeEnvFile (worktreePath ++ "/.env.local")]
           else [])
        if env.cmdOk (.zellijSpawn ("wt-" ++ label)) then
          let (a, answers1) := takeAnswer answers
          if promptUser a then
            let r := cleanupWorktree env answers1 label configDir
            ⟨r.outcome, t1 ++ Cmd.zellijSpawn ("wt-" ++ label) :: r.trace,
             r.answersLeft⟩
          else ⟨.ok, t1 ++ [.zellijSpawn ("wt-" ++ label)], answers1⟩
        else ⟨.fatal, t1 ++ [.zellijSpawn ("wt-" ++ label)], answers⟩
      else ⟨.fatal, t0, answers⟩
  else ⟨.fatal, [], answers⟩

/-- `openWorktree` (lines 253-301): fatal when the worktree path does not
exist or the config fails to load; list the zellij sessions (`.nothrow()`,
so a non-zero exit yields no sessions rather than an error), then attach
when some session name contains `wt-label`, else spawn a new session. -/
def openWorktree (env : Env) (answers : List String)
    (label configDir : String) : RunResult :=
  let worktreePath := worktreePathOf env configDir label
  if env.fsExists worktreePath then
    if env.configOk then
      let sessionName := "wt-" ++ label
      let sessions :=
        match env.sessionsOut with
        | some out => jsSplitNl (jsTrim out)
        | none => ([] : List String)
      if sessions.any (fun s => jsIncludes s sessionName) then
        if env.cmdOk (.zellijAttach sessionName) then
          ⟨.ok, [.zellijListSessions, .zellijAttach sessionName], answers⟩
        else
          ⟨.fatal, [.zellijListSessions, .zellijAttach sessionName], answers⟩
      else
        if env.cmdOk (.zellijSpawn sessionName) then
          ⟨.ok, [.zellijListSessions, .zellijSpawn sessionName], answers⟩
        else
          ⟨.fatal, [.zellijListSessions, .zellijSpawn sessionName], answers⟩
    else ⟨.fatal, [], answers⟩
  else ⟨.fatal, [], answers⟩

/-- The `open <label>` CLI action (lines 417-429): validate the label, then
call `openWorktree`. -/
def openCommand (env : Env) (answers : List String)
    (label configDir : String) : RunResult :=
  if validLabel label then openWorktree env answers label configDir
  else ⟨.fatal, [], answers⟩

/-- The `cleanup <label>` CLI action with a label (lines 432-450): validate
the label, then call `cleanupWorktree`. -/
def cleanupCommand (env : Env) (answers : List String)
    (label configDir : String) : RunResult :=
  if validLabel label then cleanupWorktree env answers label configDir
  else ⟨.fatal, [], answers⟩

/-! ## Reconciliation lemmas -/

theorem cherryPickAll_ok (env : Env) (l : List String)
    (h : ∀ c ∈ l, jsEmpty (jsTrim c) = false →
      env.cmdOk (.gitCherryPick c) = true) :
    cherryPickAll env l =
      .ok ((l.filter (fun c => !jsEmpty (jsTrim c))).map Cmd.gitCherryPick) := by
  induction l with
  | nil => rfl
  | cons c cs ih =>
    have hcs : ∀ x ∈ cs, jsEmpty (jsTrim x) = false →
        env.cmdOk (.gitCherryPick x) = true :=
      fun x hx => h x (List.mem_cons_of_mem _ hx)
    rw [cherryPickAll]
    by_cases he : jsEmpty (jsTrim c) = true
    · rw [if_pos he, ih hcs, List.filter_cons]
      simp [he]
    · have he' : jsEmpty (jsTrim c) = false := by
        cases hb : jsEmpty (jsTrim c)
        · rfl
        · exact absurd hb he
      have hc := h c (List.mem_cons_self c cs) he'
      rw [if_neg he, if_pos hc, ih hcs, List.filter_cons]
      simp [he']

theorem cherryPickAll_error (env : Env) (l₁ : List String) (c : String)
    (l₂ : List String)
    (h1 : ∀ x ∈ l₁, jsEmpty (jsTrim x) = false →
      env.cmdOk (.gitCherryPick x) = true)
    (hc1 : jsEmpty (jsTrim c) = false)
    (hc2 : env.cmdOk (.gitCherryPick c) = false) :
    cherryPickAll env (l₁ ++ c :: l₂) =
      .error ((l₁.filter (fun x => !jsEmpty (jsTrim x))).map Cmd.gitCherryPick
              ++ [.gitCherryPick c]) := by
  induction l₁ with
  | nil =>
    rw [List.nil_append, cherryPickAll]
    rw [if_neg (by simp [hc1]), if_neg (by simp [hc2])]
    simp
  | cons x xs ih =>
    have hxs : ∀ y ∈ xs, jsEmpty (jsTrim y) = false →
        env.cmdOk (.gitCherryPick y) = true :=
      fun y hy => h1 y (List.mem_cons_of_mem _ hy)
    rw [List.cons_append, cherryPickAll]
    by_cases he : jsEmpty (jsTrim x) = true
    · rw [if_pos he, ih hxs, List.filter_cons]
      simp [he]
    · have he' : jsEmpty (jsTrim x) = false := by
        cases hb : jsEmpty (jsTrim x)
        · rfl
        · exact absurd hb he
      have hx := h1 x (List.mem_cons_self x xs) he'
      rw [if_neg he, if_pos hx, ih hxs, List.filter_cons]
      simp [he']

/-- C1: a failing cherry-pick during the reconciliation step of
`cleanupWorktree` makes the whole cleanup fatal before any destructive
step: the trace stops at the failing pick, the picks before it in the
oldest-first order were issued and succeeded, no later commit is picked,
and the worktree-removal, branch-deletion and session-deletion commands are
never invoked. -/
theorem cleanup_conflict_aborts (env : Env) (ans : String)
    (rest : List String) (label configDir out : String)
    (l₁ : List String) (c : String) (l₂ : List String)
    (hfs : env.fsExists (worktreePathOf env configDir label) = true)
    (hun : hasUnmergedCommits env label = true)
    (hpa : promptUser ans = true)
    (hco : env.cmdOk .gitCheckoutMain = true)
    (hrev : env.revListOut label = some out)
    (hsplit : (jsSplitNl (jsTrim out)).reverse = l₁ ++ c :: l₂)
    (h1 : ∀ x ∈ l₁, jsEmpty (jsTrim x) = false →
      env.cmdOk (.gitCherryPick x) = true)
    (hc1 : jsEmpty (jsTrim c) = false)
    (hc2 : env.cmdOk (.gitCherryPick c) = false)
    (hdisj : ∀ x ∈ l₂, x ∉ l₁ ∧ x ≠ c) :
    (cleanupWorktree env (ans :: rest) label configDir).outcome = .fatal
    ∧ (cleanupWorktree env (ans :: rest) label configDir).trace =
        .gitLog label :: .gitCheckoutMain :: .gitRevList label ::
          ((l₁.filter (fun x => !jsEmpty (jsTrim x))).map Cmd.gitCherryPick
            ++ [.gitCherryPick c])
    ∧ (∀ x ∈ l₁, jsEmpty (jsTrim x) = false →
        Cmd.gitCherryPick x ∈ (cleanupWorktree env (ans :: rest) label
          configDir).trace
        ∧ env.cmdOk (.gitCherryPick x) = true)
    ∧ (∀ x ∈ l₂, Cmd.gitCherryPick x ∉
        (cleanupWorktree env (ans :: rest) label configDir).trace)
    ∧ (∀ p, Cmd.gitWorktreeRemove p ∉
        (cleanupWorktree env (ans :: rest) label configDir).trace)
    ∧ (∀ b, Cmd.gitBranchDelete b ∉
        (cleanupWorktree env (ans :: rest) label configDir).trace)
    ∧ (∀ s, Cmd.zellijDeleteSession s ∉
        (cleanupWorktree env (ans :: rest) label configDir).trace) := by
  have hpick : pickPhase env label =
      .error (.gitCheckoutMain :: .gitRevList label ::
        ((l₁.filter (fun x => !jsEmpty (jsTrim x))).map Cmd.gitCherryPick
          ++ [.gitCherryPick c])) := by
    have hcp := cherryPickAll_error env l₁ c l₂ h1 hc1 hc2
    rw [pickPhase, if_pos hco, hrev]
    simp only [hsplit, hcp]
  have hrun : cleanupWorktree env (ans :: rest) label configDir =
      ⟨.fatal, .gitLog label :: .gitCheckoutMain :: .gitRevList label ::
        ((l₁.filter (fun x => !jsEmpty (jsTrim x))).map Cmd.gitCherryPick
          ++ [.gitCherryPick c]), rest⟩ := by
    rw [cleanupWorktree]
    simp only [hfs, hun, hpa, hpick, takeAnswer, if_true, eq_self_iff_true]
  refine ⟨by rw [hrun], by rw [hrun], ?_, ?_, ?_, ?_, ?_⟩
  · intro x hx hxe
    refine ⟨?_, h1 x hx hxe⟩
    have hin : Cmd.gitCherryPick x ∈
        (l₁.filter (fun y => !jsEmpty (jsTrim y))).map Cmd.gitCherryPick :=
      List.mem_map.mpr ⟨x, List.mem_filter.mpr ⟨hx, by simp [hxe]⟩, rfl⟩
    rw [hrun]
    exact List.mem_cons_of_mem _ (List.mem_cons_of_mem _
      (List.mem_cons_of_mem _ (List.mem_append_left _ hin)))
  · intro x hx
    obtain ⟨hnl1, hnec⟩ := hdisj x hx
    rw [hrun]
    simp [List.mem_filter, hnl1, hnec]
  · intro p
    rw [hrun]
    simp
  · intro b
    rw [hrun]
    simp
  · intro s
    rw [hrun]
    simp

/-- Concrete world for the conflict witness: worktree `x` exists, the label
branch has commits `C1`, `C2`, `C3` (so `git rev-list` prints them
newest-first), and the cherry-pick of `C2` conflicts. -/
def envConflict : Env where
  cwd := "/repo"
  fsExists := fun p => p == "/repo/.wt/worktrees/x"
  gitLogOut := fun _ => some "deadbee C3"
  revListOut := fun _ => some "C3\nC2\nC1"
  worktreeListOut := none
  sessionsOut := none
  cmdOk := fun c =>
    match c with
    | .gitCherryPick s => s == "C1"
    | _ => true
  configOk := true
  hasEnvironment := true

/-- Witness for `cleanup_conflict_aborts`: with `C2` conflicting, the run is
fatal, `C1` was picked, `C2` was attempted, `C3` was not, and no
destructive command was issued. -/
theorem cleanup_conflict_aborts_witness :
    (cleanupWorktree envConflict ["y"] "x" ".wt").outcome = Outcome.fatal
    ∧ (cleanupWorktree envConflict ["y"] "x" ".wt").trace =
        [Cmd.gitLog "x", Cmd.gitCheckoutMain, Cmd.gitRevList "x",
         Cmd.gitCherryPick "C1", Cmd.gitCherryPick "C2"] := by
  have h := cleanup_conflict_aborts envConflict "y" [] "x" ".wt"
    "C3\nC2\nC1" ["C1"] "C2" ["C3"]
    (by decide) (by decide) (by decide) (by decide) (by decide)
    (by decide) (by decide) (by decide) (by decide) (by decide)
  exact ⟨h.1, by rw [h.2.1]; decide⟩

/-- C5: on the consented reconciliation path with every cherry-pick
succeeding, `cleanupWorktree` picks exactly the non-empty entries of the
reversed (hence oldest-first) `git rev-list` output, in that order, before
the destructive tail. -/
theorem reconcile_oldest_first (env : Env) (ans : String)
    (rest : List String) (label configDir out : String)
    (hfs : env.fsExists (worktreePathOf env configDir label) = true)
    (hun : hasUnmergedCommits env label = true)
    (hpa : promptUser ans = true)
    (hco : env.cmdOk .gitCheckoutMain = true)
    (hrev : env.revListOut label = some out)
    (hall : ∀ x ∈ (jsSplitNl (jsTrim out)).reverse,
      jsEmpty (jsTrim x) = false → env.cmdOk (.gitCherryPick x) = true)
    (hrm : env.cmdOk (.gitWorktreeRemove
      (worktreePathOf env configDir label)) = true)
    (hbd : env.cmdOk (.gitBranchDelete label) = true)
    (hzd : env.cmdOk (.zellijDeleteSession ("wt-" ++ label)) = true) :
    cleanupWorktree env (ans :: rest) label configDir =
      ⟨.ok, .gitLog label :: .gitCheckoutMain :: .gitRevList label ::
        ((((jsSplitNl (jsTrim out)).reverse).filter
            (fun x => !jsEmpty (jsTrim x))).map Cmd.gitCherryPick
          ++ [.gitWorktreeRemove (worktreePathOf env configDir label),
              .gitBranchDelete label,
              .zellijDeleteSession ("wt-" ++ label)]), rest⟩ := by
  have hpick : pickPhase env label =
      .ok (.gitCheckoutMain :: .gitRevList label ::
        (((jsSplitNl (jsTrim out)).reverse).filter
          (fun x => !jsEmpty (jsTrim x))).map Cmd.gitCherryPick) := by
    have hcp := cherryPickAll_ok env ((jsSplitNl (jsTrim out)).reverse) hall
    rw [pickPhase, if_pos hco, hrev]
    simp only [hcp]
  have hdes : destructivePhase env label (worktreePathOf env configDir label) =
      (.ok, [.gitWorktreeRemove (worktreePathOf env configDir label),
             .gitBranchDelete label,
             .zellijDeleteSession ("wt-" ++ label)]) := by
    rw [destructivePhase, if_pos hrm, if_pos hbd, if_pos hzd]
  rw [cleanupWorktree]
  simp only [hfs, hun, hpa, hpick, hdes, takeAnswer, if_true,
    eq_self_iff_true, List.cons_append, List.nil_append]

/-- Concrete world for the ordering witness: all three picks succeed. -/
def envReconcile : Env where
  cwd := "/repo"
  fsExists := fun p => p == "/repo/.wt/worktrees/x"
  gitLogOut := fun _ => some "deadbee C3"
  revListOut := fun _ => some "C3\nC2\nC1"
  worktreeListOut := none
  sessionsOut := none
  cmdOk := fun _ => true
  configOk := true
  hasEnvironment := true

/-- Witness for `reconcile_oldest_first`: the query returns `C3`, `C2`,
`C1` newest-first and the picks run as `C1`, `C2`, `C3`. -/
theorem reconcile_oldest_first_witness :
    cleanupWorktree envReconcile ["yes"] "x" ".wt" =
      ⟨.ok, [Cmd.gitLog "x", Cmd.gitCheckoutMain, Cmd.gitRevList "x",
             Cmd.gitCherryPick "C1", Cmd.gitCherryPick "C2",
             Cmd.gitCherryPick "C3",
             Cmd.gitWorktreeRemove "/repo/.wt/worktrees/x",
             Cmd.gitBranchDelete "x", Cmd.zellijDeleteSession "wt-x"],
       []⟩ := by
  have h := reconcile_oldest_first envReconcile "yes" [] "x" ".wt"
    "C3\nC2\nC1"
    (by decide) (by decide) (by decide) (by decide) (by decide)
    (by decide) (by decide) (by decide) (by decide)
  rw [h]
  decide

/-- C2 (amended): deletion of the zellij session during cleanup is NOT
best-effort.  The `zellij delete-session` invocation has no `.nothrow()`,
so a non-zero exit throws, reaches the catch, and `showError` makes the
whole cleanup fatal — after the worktree and branch have already been
removed. -/
theorem cleanup_session_delete_fatal (env : Env) (answers : List String)
    (label configDir : String)
    (hfs : env.fsExists (worktreePathOf env configDir label) = true)
    (hun : hasUnmergedCommits env label = false)
    (hrm : env.cmdOk (.gitWorktreeRemove
      (worktreePathOf env configDir label)) = true)
    (hbd : env.cmdOk (.gitBranchDelete label) = true)
    (hzd : env.cmdOk (.zellijDeleteSession ("wt-" ++ label)) = false) :
    cleanupWorktree env answers label configDir =
      ⟨.fatal, [.gitLog label,
                .gitWorktreeRemove (worktreePathOf env configDir label),
                .gitBranchDelete label,
                .zellijDeleteSession ("wt-" ++ label)], answers⟩ := by
  have hdes : destructivePhase env label (worktreePathOf env configDir label) =
      (.fatal, [.gitWorktreeRemove (worktreePathOf env configDir label),
                .gitBranchDelete label,
                .zellijDeleteSession ("wt-" ++ label)]) := by
    rw [destructivePhase, if_pos hrm, if_pos hbd, if_neg (by simp [hzd])]
  rw [cleanupWorktree]
  simp only [hfs, hun, hdes, if_true, if_false, eq_self_iff_true,
    Bool.false_eq_true, List.nil_append]

/-- Concrete world for the session-deletion failure: nothing unmerged,
worktree removal and branch deletion succeed, session deletion exits
non-zero (e.g. the session never existed). -/
def envSessionFail : Env where
  cwd := "/repo"
  fsExists := fun p => p == "/repo/.wt/worktrees/x"
  gitLogOut := fun _ => some ""
  revListOut := fun _ => none
  worktreeListOut := none
  sessionsOut := none
  cmdOk := fun c =>
    match c with
    | .zellijDeleteSession _ => false
    | _ => true
  configOk := true
  hasEnvironment := true

/-- Counterexample to C2 as stated: worktree removal and branch deletion
succeeded, the session-deletion command exited non-zero, and the cleanup
did NOT complete successfully — it is fatal. -/
theorem cleanup_session_best_effort_cex :
    envSessionFail.cmdOk
        (Cmd.gitWorktreeRemove "/repo/.wt/worktrees/x") = true
    ∧ envSessionFail.cmdOk (Cmd.gitBranchDelete "x") = true
    ∧ envSessionFail.cmdOk (Cmd.zellijDeleteSession "wt-x") = false
    ∧ Cmd.gitWorktreeRemove "/repo/.wt/worktrees/x" ∈
        (cleanupWorktree envSessionFail [] "x" ".wt").trace
    ∧ Cmd.gitBranchDelete "x" ∈
        (cleanupWorktree envSessionFail [] "x" ".wt").trace
    ∧ (cleanupWorktree envSessionFail [] "x" ".wt").outcome ≠ Outcome.ok := by
  decide

/-- Witness for `cleanup_session_delete_fatal` at the concrete world. -/
theorem cleanup_session_delete_fatal_witness :
    cleanupWorktree envSessionFail [] "x" ".wt" =
      ⟨.fatal, [Cmd.gitLog "x",
                Cmd.gitWorktreeRemove "/repo/.wt/worktrees/x",
                Cmd.gitBranchDelete "x",
                Cmd.zellijDeleteSession "wt-x"], []⟩ := by
  have h := cleanup_session_delete_fatal envSessionFail [] "x" ".wt"
    (by decide) (by decide) (by decide) (by decide) (by decide)
  rw [h]
  decide

/-! ## Batch cleanup -/

theorem cleanupLoop_all_ok (env : Env) (cd : String) (ans : List String)
    (labels : List String)
    (h : ∀ l ∈ labels, (cleanupWorktree env ans l cd).outcome = .ok ∧
      (cleanupWorktree env ans l cd).answersLeft = ans) :
    cleanupLoop env cd ans labels =
      (.ok, (labels.map
        (fun l => (cleanupWorktree env ans l cd).trace)).flatten, ans) := by
  induction labels with
  | nil => rfl
  | cons l ls ih =>
    obtain ⟨ho, ha⟩ := h l (List.mem_cons_self l ls)
    rw [cleanupLoop]
    simp only [ho, ha, ih (fun x hx => h x (List.mem_cons_of_mem _ hx)),
      List.map_cons, List.flatten_cons]

theorem cleanupLoop_first_fatal (env : Env) (cd : String) (ans : List String)
    (pre : List String) (bad : String) (post : List String)
    (hpre : ∀ l ∈ pre, (cleanupWorktree env ans l cd).outcome = .ok ∧
      (cleanupWorktree env ans l cd).answersLeft = ans)
    (hbad : (cleanupWorktree env ans bad cd).outcome = .fatal) :
    cleanupLoop env cd ans (pre ++ bad :: post) =
      (.fatal,
       (pre.map (fun l => (cleanupWorktree env ans l cd).trace)).flatten
         ++ (cleanupWorktree env ans bad cd).trace,
       (cleanupWorktree env ans bad cd).answersLeft) := by
  induction pre with
  | nil =>
    rw [List.nil_append, cleanupLoop]
    simp only [hbad, List.map_nil, List.flatten_nil, List.nil_append]
  | cons l ls ih =>
    obtain ⟨ho, ha⟩ := hpre l (List.mem_cons_self l ls)
    rw [List.cons_append, cleanupLoop]
    simp only [ho, ha, ih (fun x hx => hpre x (List.mem_cons_of_mem _ hx)),
      List.map_cons, List.flatten_cons, List.append_assoc]

/-- C3 (amended): with a single batch confirmation, `cleanupAllWorktrees`
runs the per-label cleanup sequentially; when every label's cleanup
succeeds all N labels are processed, but the first label whose cleanup
reports a fatal error terminates the whole process (`showError` calls
`process.exit(1)` from inside `cleanupWorktree`), so the remaining labels
are never cleaned — the batch does NOT continue past an error. -/
theorem cleanupAll_sequential_until_fatal (env : Env) (cd : String) :
    (∀ a ans labels,
      getAllWorktrees env cd = labels → labels ≠ [] → promptUser a = true →
      (∀ l ∈ labels, (cleanupWorktree env ans l cd).outcome = .ok ∧
        (cleanupWorktree env ans l cd).answersLeft = ans) →
      cleanupAllWorktrees env (a :: ans) cd =
        ⟨.ok, .gitWorktreeList :: (labels.map
          (fun l => (cleanupWorktree env ans l cd).trace)).flatten, ans⟩)
    ∧ (∀ a ans pre bad post,
      getAllWorktrees env cd = pre ++ bad :: post → promptUser a = true →
      (∀ l ∈ pre, (cleanupWorktree env ans l cd).outcome = .ok ∧
        (cleanupWorktree env ans l cd).answersLeft = ans) →
      (cleanupWorktree env ans bad cd).outcome = .fatal →
      cleanupAllWorktrees env (a :: ans) cd =
        ⟨.fatal, .gitWorktreeList ::
          ((pre.map (fun l => (cleanupWorktree env ans l cd).trace)).flatten
            ++ (cleanupWorktree env ans bad cd).trace),
          (cleanupWorktree env ans bad cd).answersLeft⟩) := by
  constructor
  · intro a ans labels hlab hne hpa hok
    have hlen : (labels.length == 0) = false := by
      cases labels with
      | nil => exact absurd rfl hne
      | cons x xs => rfl
    rw [cleanupAllWorktrees]
    simp only [hlab, hlen, takeAnswer, hpa, if_true, if_false,
      Bool.false_eq_true, cleanupLoop_all_ok env cd ans labels hok]
  · intro a ans pre bad post hlab hpa hok hbad
    have hne : pre ++ bad :: post ≠ [] := by
      cases pre <;> simp
    have hlen : ((pre ++ bad :: post).length == 0) = false := by
      cases pre <;> rfl
    rw [cleanupAllWorktrees]
    simp only [hlab, hlen, takeAnswer, hpa, if_true, if_false,
      Bool.false_eq_true,
      cleanupLoop_first_fatal env cd ans pre bad post hok hbad]

/-- Concrete world for the batch-abort example: two registered worktrees
`a` and `b`; removing the worktree of `a` fails, everything about `b`
would succeed. -/
def envBatch : Env where
  cwd := "/repo"
  fsExists := fun p =>
    p == "/repo/.wt/worktrees/a" || p == "/repo/.wt/worktrees/b"
  gitLogOut := fun _ => some ""
  revListOut := fun _ => none
  worktreeListOut :=
    some "worktree /repo/.wt/worktrees/a\nworktree /repo/.wt/worktrees/b"
  sessionsOut := none
  cmdOk := fun c =>
    match c with
    | .gitWorktreeRemove p => p == "/repo/.wt/worktrees/b"
    | _ => true
  configOk := true
  hasEnvironment := true

/-- Counterexample to C3 as stated: with two registered labels and one
confirmation, the fatal cleanup of `a` terminates the whole batch, and the
cleanup of `b` — whose worktree exists — is never even started (no command
mentioning `b` is issued). -/
theorem cleanupAll_continue_cex :
    getAllWorktrees envBatch ".wt" = ["a", "b"]
    ∧ (cleanupAllWorktrees envBatch ["y"] ".wt").outcome = Outcome.fatal
    ∧ (cleanupAllWorktrees envBatch ["y"] ".wt").trace =
        [Cmd.gitWorktreeList, Cmd.gitLog "a",
         Cmd.gitWorktreeRemove "/repo/.wt/worktrees/a"]
    ∧ Cmd.gitLog "b" ∉ (cleanupAllWorktrees envBatch ["y"] ".wt").trace
    ∧ Cmd.gitWorktreeRemove "/repo/.wt/worktrees/b" ∉
        (cleanupAllWorktrees envBatch ["y"] ".wt").trace
    ∧ envBatch.fsExists "/repo/.wt/worktrees/b" = true := by
  decide

/-- Witness for `cleanupAll_sequential_until_fatal`: the batch with labels
`a` (fatal) and `b` stops after `a`. -/
theorem cleanupAll_sequential_until_fatal_witness :
    cleanupAllWorktrees envBatch ["y"] ".wt" =
      ⟨.fatal, [Cmd.gitWorktreeList, Cmd.gitLog "a",
                Cmd.gitWorktreeRemove "/repo/.wt/worktrees/a"], []⟩ := by
  have h := (cleanupAll_sequential_until_fatal envBatch ".wt").2 "y" [] []
    "a" ["b"] (by decide) (by decide) (by decide) (by decide)
  rw [h]
  decide

/-! ## Worktree creation -/

/-- C4: when the worktree directory already exists, `createWorktree` skips
the creation block entirely — no `git worktree add`, no scaffold copy, no
dependency install — but still rewrites the environment file and launches
the zellij session for the label. -/
theorem create_idempotent_skip (env : Env) (a : String) (rest : List String)
    (label configDir : String)
    (hv : validLabel label = true)
    (hfs : env.fsExists (worktreePathOf env configDir label) = true)
    (hcfg : env.configOk = true)
    (henv : env.hasEnvironment = true)
    (hsp : env.cmdOk (.zellijSpawn ("wt-" ++ label)) = true)
    (hpa : promptUser a = false) :
    createWorktree env (a :: rest) label configDir =
      ⟨.ok, [.writeEnvFile (worktreePathOf env configDir label
               ++ "/.env.local"),
             .zellijSpawn ("wt-" ++ label)], rest⟩
    ∧ (∀ p b, Cmd.gitWorktreeAdd p b ∉
        (createWorktree env (a :: rest) label configDir).trace)
    ∧ (∀ p, Cmd.cpScaffold p ∉
        (createWorktree env (a :: rest) label configDir).trace)
    ∧ (∀ p, Cmd.bunInstall p ∉
        (createWorktree env (a :: rest) label configDir).trace)
    ∧ Cmd.writeEnvFile (worktreePathOf env configDir label ++ "/.env.local")
        ∈ (createWorktree env (a :: rest) label configDir).trace
    ∧ Cmd.zellijSpawn ("wt-" ++ label)
        ∈ (createWorktree env (a :: rest) label configDir).trace := by
  have hcr : creationPhase env label (worktreePathOf env configDir label) =
      .ok [] := by
    rw [creationPhase, if_pos hfs]
  have hrun : createWorktree env (a :: rest) label configDir =
      ⟨.ok, [.writeEnvFile (worktreePathOf env configDir label
               ++ "/.env.local"),
             .zellijSpawn ("wt-" ++ label)], rest⟩ := by
    rw [createWorktree]
    simp only [hv, hcr, hcfg, henv, hsp, hpa, takeAnswer, if_true, if_false,
      Bool.false_eq_true, List.nil_append, List.singleton_append]
  refine ⟨hrun, ?_, ?_, ?_, ?_, ?_⟩
  · intro p b
    rw [hrun]
    simp
  · intro p
    rw [hrun]
    simp
  · intro p
    rw [hrun]
    simp
  · rw [hrun]
    simp
  · rw [hrun]
    simp

/-- Concrete world for the idempotent-create witness: the worktree of `x`
already exists and every external step succeeds. -/
def envExisting : Env where
  cwd := "/repo"
  fsExists := fun p => p == "/repo/.wt/worktrees/x"
  gitLogOut := fun _ => some ""
  revListOut := fun _ => none
  worktreeListOut := none
  sessionsOut := none
  cmdOk := fun _ => true
  configOk := true
  hasEnvironment := true

/-- Witness for `create_idempotent_skip`: re-running create on the existing
worktree `x` only rewrites `.env.local` and spawns the session. -/
theorem create_idempotent_skip_witness :
    createWorktree envExisting ["n"] "x" ".wt" =
      ⟨.ok, [Cmd.writeEnvFile "/repo/.wt/worktrees/x/.env.local",
             Cmd.zellijSpawn "wt-x"], []⟩ := by
  have h := (create_idempotent_skip envExisting "n" [] "x" ".wt"
    (by decide) (by decide) (by decide) (by decide) (by decide)
    (by decide)).1
  rw [h]
  decide

/-! ## Label validation across entry points -/

theorem string_eq_empty_iff (s : String) : s = "" ↔ s.data = [] := by
  constructor
  · intro h
    rw [h]
  · intro h
    cases s with
    | mk d => exact congrArg String.mk h

theorem labelChar_iff (c : Char) : labelChar c = true ↔
    (('a' ≤ c ∧ c ≤ 'z') ∨ ('A' ≤ c ∧ c ≤ 'Z') ∨ ('0' ≤ c ∧ c ≤ '9')
      ∨ c = '_' ∨ c = '-') := by
  rw [labelChar]
  simp [Bool.or_eq_true, Bool.and_eq_true, decide_eq_true_eq, beq_iff_eq,
    and_assoc, or_assoc]

/-- C8: label validation accepts exactly the non-empty strings all of whose
characters lie in `[A-Za-z0-9_-]`; the empty string and strings with `/`,
a space, or `.` are rejected; and an invalid label makes each of the
`new`, `open` and `cleanup` entry points fatal with no external command
issued. -/
theorem label_validation :
    (∀ s : String, validLabel s = true ↔
      (s ≠ "" ∧ ∀ ch ∈ s.data,
        (('a' ≤ ch ∧ ch ≤ 'z') ∨ ('A' ≤ ch ∧ ch ≤ 'Z')
          ∨ ('0' ≤ ch ∧ ch ≤ '9') ∨ ch = '_' ∨ ch = '-')))
    ∧ validLabel "" = false
    ∧ validLabel "a/b" = false
    ∧ validLabel "a b" = false
    ∧ validLabel "a.b" = false
    ∧ validLabel "feature-auth_2" = true
    ∧ (∀ env ans s cd, validLabel s = false →
        createWorktree env ans s cd = ⟨.fatal, [], ans⟩
        ∧ openCommand env ans s cd = ⟨.fatal, [], ans⟩
        ∧ cleanupCommand env ans s cd = ⟨.fatal, [], ans⟩) := by
  refine ⟨?_, by decide, by decide, by decide, by decide, by decide, ?_⟩
  · intro s
    rw [validLabel]
    rw [Bool.and_eq_true, List.all_eq_true]
    constructor
    · rintro ⟨h1, h2⟩
      refine ⟨?_, fun ch hch => (labelChar_iff ch).mp (h2 ch hch)⟩
      intro heq
      subst heq
      exact absurd h1 (by decide)
    · rintro ⟨h1, h2⟩
      refine ⟨?_, fun ch hch => (labelChar_iff ch).mpr (h2 ch hch)⟩
      cases hd : s.data with
      | nil => exact absurd ((string_eq_empty_iff s).mpr hd) h1
      | cons c cs => simp [jsEmpty, hd]
  · intro env ans s cd hbad
    refine ⟨?_, ?_, ?_⟩
    · rw [createWorktree, if_neg (by simp [hbad])]
    · rw [openCommand, if_neg (by simp [hbad])]
    · rw [cleanupCommand, if_neg (by simp [hbad])]

/-- Witness for `label_validation`: the invalid label `a/b` makes all three
entry points fatal with an empty trace. -/
theorem label_validation_witness :
    createWorktree envExisting [] "a/b" ".wt" =
      ⟨Outcome.fatal, [], []⟩
    ∧ openCommand envExisting [] "a/b" ".wt" =
      ⟨Outcome.fatal, [], []⟩
    ∧ cleanupCommand envExisting [] "a/b" ".wt" =
      ⟨Outcome.fatal, [], []⟩ :=
  label_validation.2.2.2.2.2.2 envExisting [] "a/b" ".wt" (by decide)

/-! ## Confirmation prompts as gates -/

theorem destructivePhase_no_pick (env : Env) (label path commit : String) :
    Cmd.gitCherryPick commit ∉ (destructivePhase env label path).2 := by
  rw [destructivePhase]
  by_cases h1 : env.cmdOk (.gitWorktreeRemove path) = true
  · rw [if_pos h1]
    by_cases h2 : env.cmdOk (.gitBranchDelete label) = true
    · rw [if_pos h2]
      by_cases h3 : env.cmdOk (.zellijDeleteSession ("wt-" ++ label)) = true
      · rw [if_pos h3]; simp
      · rw [if_neg h3]; simp
    · rw [if_neg h2]; simp
  · rw [if_neg h1]; simp

/-- C9: `promptUser` resolves true exactly when the input line, trimmed and
lowercased, is `y` or `yes`; the empty line resolves false; and each
confirmation gate defaults to declining — a non-affirmative answer to the
batch prompt issues no per-label cleanup command, a non-affirmative answer
to the cherry-pick prompt issues no cherry-pick, and a non-affirmative
answer to the post-session prompt issues no destructive command. -/
theorem promptUser_gates :
    (∀ input : String, promptUser input = true ↔
      (jsToLower (jsTrim input) = "y" ∨ jsToLower (jsTrim input) = "yes"))
    ∧ promptUser "" = false
    ∧ (∀ env a ans cd, promptUser a = false → getAllWorktrees env cd ≠ [] →
        cleanupAllWorktrees env (a :: ans) cd =
          ⟨.ok, [.gitWorktreeList], ans⟩)
    ∧ (∀ env a ans label cd, promptUser a = false →
        hasUnmergedCommits env label = true →
        env.fsExists (worktreePathOf env cd label) = true →
        ∀ commit, Cmd.gitCherryPick commit ∉
          (cleanupWorktree env (a :: ans) label cd).trace)
    ∧ (∀ env a ans label cd, validLabel label = true →
        env.fsExists (worktreePathOf env cd label) = true →
        env.configOk = true →
        env.cmdOk (.zellijSpawn ("wt-" ++ label)) = true →
        promptUser a = false →
        (∀ p, Cmd.gitWorktreeRemove p ∉
          (createWorktree env (a :: ans) label cd).trace)
        ∧ (∀ b, Cmd.gitBranchDelete b ∉
          (createWorktree env (a :: ans) label cd).trace)) := by
  refine ⟨?_, by decide, ?_, ?_, ?_⟩
  · intro input
    rw [promptUser]
    simp [Bool.or_eq_true, beq_iff_eq]
  · intro env a ans cd hpa hne
    have hlen : ((getAllWorktrees env cd).length == 0) = false := by
      cases hg : getAllWorktrees env cd with
      | nil => exact absurd hg hne
      | cons x xs => rfl
    rw [cleanupAllWorktrees]
    simp only [hlen, takeAnswer, hpa, if_false, Bool.false_eq_true]
  · intro env a ans label cd hpa hun hfs commit
    rw [cleanupWorktree]
    simp only [hfs, hun, hpa, takeAnswer, if_true, if_false,
      Bool.false_eq_true, eq_self_iff_true, List.nil_append]
    intro hmem
    rcases List.mem_cons.mp hmem with h | h
    · exact Cmd.noConfusion h
    · exact destructivePhase_no_pick env label _ commit h
  · intro env a ans label cd hv hfs hcfg hsp hpa
    have hcr : creationPhase env label (worktreePathOf env cd label) =
        .ok [] := by
      rw [creationPhase, if_pos hfs]
    have hrun : createWorktree env (a :: ans) label cd =
        ⟨.ok, (if env.hasEnvironment then
            [Cmd.writeEnvFile (worktreePathOf env cd label ++ "/.env.local")]
          else []) ++ [.zellijSpawn ("wt-" ++ label)], ans⟩ := by
      rw [createWorktree]
      simp only [hv, hcr, hcfg, hsp, hpa, takeAnswer, if_true, if_false,
        Bool.false_eq_true, List.nil_append]
    constructor
    · intro p
      rw [hrun]
      by_cases he : env.hasEnvironment = true
      · simp [he]
      · simp [he]
    · intro b
      rw [hrun]
      by_cases he : env.hasEnvironment = true
      · simp [he]
      · simp [he]

/-- Concrete world for the gate witness (same shape as the batch world). -/
def envGate : Env where
  cwd := "/repo"
  fsExists := fun p =>
    p == "/repo/.wt/worktrees/a" || p == "/repo/.wt/worktrees/b"
  gitLogOut := fun _ => some ""
  revListOut := fun _ => none
  worktreeListOut :=
    some "worktree /repo/.wt/worktrees/a\nworktree /repo/.wt/worktrees/b"
  sessionsOut := none
  cmdOk := fun _ => true
  configOk := true
  hasEnvironment := true

/-- Witness for `promptUser_gates`: answering `n` to the batch prompt
cancels the batch with only the registry read issued. -/
theorem promptUser_gates_witness :
    promptUser "n" = false
    ∧ cleanupAllWorktrees envGate ["n"] ".wt" =
        ⟨Outcome.ok, [Cmd.gitWorktreeList], []⟩ := by
  constructor
  · decide
  · exact promptUser_gates.2.2.1 envGate "n" [] ".wt" (by decide) (by decide)

end Wt
